/-
Verification of the GMW job-log analyzer's data-processing core.

The shallow embedding below translates, from the JavaScript source:
  * `Utils.calculateStats`, `Utils.groupBy`            (utils part)
  * `DataProcessor.parseDateTime`, `processRow`,
    `processFileData`, `validateHeaders`, `readFile`,
    `processFiles`, `reset`, `calculateStatistics`     (dataProcessor part)
  * `ExportManager.calculateOverdueAnalysis`           (exportManager part)
  * `CONFIG.EXCEL` / `CONFIG.ANALYSIS`                 (config.js)

Modelling conventions:
  * JavaScript strings are embedded as `List Char`; all primitive string
    operations used by the source (trim, split, includes, replace) are
    defined below by structural recursion so that they evaluate in the
    kernel.
  * Timestamps (JavaScript `Date` values) are embedded as `Int`
    milliseconds on a single clock; time-zone offsets are not modelled
    (every comparison in the source is a difference of two timestamps).
  * Numbers are embedded as `ℚ`; `Math.sqrt` is `Real.sqrt`, so standard
    deviations live in `ℝ` while every other quantity stays rational and
    computable.  IEEE `NaN` has no rational counterpart: a duration
    computed from two valid timestamps is never `NaN`, so the
    `isNaN(duration)` guard of the source is modelled by the
    `duration < 0` guard alone.
  * Error classes carry a `type` discriminant and an optional wrapped
    original error in the source; messages are not modelled.
-/
import Mathlib

/-! ## Primitive string operations (JavaScript semantics on `List Char`) -/

/-- Shorthand for `String.toList`, used to write the embedded string literals. -/
def jstr (s : String) : List Char := s.toList

/-- JavaScript `String.prototype.trim`. -/
def trimChars (cs : List Char) : List Char :=
  ((cs.dropWhile Char.isWhitespace).reverse.dropWhile Char.isWhitespace).reverse

/-- Splitter for JavaScript `String.prototype.split` with a one-character
separator: `splitOnCharAux sep cs acc` accumulates the current field in
`acc` (reversed). -/
def splitOnCharAux (sep : Char) : List Char → List Char → List (List Char)
  | [], acc => [acc.reverse]
  | c :: rest, acc =>
    if c = sep then acc.reverse :: splitOnCharAux sep rest []
    else splitOnCharAux sep rest (c :: acc)

/-- JavaScript `s.split(sep)` for a one-character separator
(`"".split(sep) = [""]`, like in JavaScript). -/
def splitOnChar (sep : Char) (cs : List Char) : List (List Char) :=
  splitOnCharAux sep cs []

/-- Does `s` start with `pat`? -/
def hasPrefixChars : List Char → List Char → Bool
  | [], _ => true
  | _ :: _, [] => false
  | p :: ps, c :: cs => p == c && hasPrefixChars ps cs

/-- JavaScript `s.includes(pat)` (substring containment; the empty pattern
is contained in every string). -/
def containsStr (pat : List Char) : List Char → Bool
  | [] => pat.isEmpty
  | c :: rest => hasPrefixChars pat (c :: rest) || containsStr pat rest

/-- Digit-string to number, as JavaScript number parsing of a plain
digit run: all characters must be decimal digits and the string must be
nonempty. -/
def charsToNat? (cs : List Char) : Option Nat :=
  if cs = [] then none
  else if cs.all Char.isDigit then
    some (cs.foldl (fun n c => n * 10 + (c.toNat - '0'.toNat)) 0)
  else none

/-- Collapse every maximal run of whitespace into a single space
(JavaScript `s.replace(/\s+/g, " ")`); `prevWs` records whether the
previous character belonged to a whitespace run. -/
def collapseWsAux (prevWs : Bool) : List Char → List Char
  | [] => []
  | c :: rest =>
    if c.isWhitespace then
      (if prevWs then [] else [' ']) ++ collapseWsAux true rest
    else c :: collapseWsAux false rest

/-- The normalization the source applies before the format attempts:
`String(value).trim().replace(/,/g, "").replace(/\s+/g, " ")`. -/
def normalizeDateStr (cs : List Char) : List Char :=
  collapseWsAux false ((trimChars cs).filter (fun c => c ≠ ','))

/-! ## Calendar arithmetic and the platform `Date` model -/

/-- Gregorian leap-year test. -/
def isLeapYear (y : Nat) : Bool :=
  (y % 4 == 0 && y % 100 != 0) || y % 400 == 0

/-- Days in month `m` (1-based) of year `y`. -/
def daysInMonth (y m : Nat) : Nat :=
  if m == 2 then (if isLeapYear y then 29 else 28)
  else if m == 4 || m == 6 || m == 9 || m == 11 then 30
  else 31

/-- Days in year `y` strictly before month `m` (1-based). -/
def daysBeforeMonth (y m : Nat) : Nat :=
  ((List.range (m - 1)).map (fun i => daysInMonth y (i + 1))).sum

/-- Day count of the civil date `y-m-d` from day zero = 0001-01-01. -/
def daysSinceYearOne (y m d : Nat) : Nat :=
  365 * (y - 1) + ((y - 1) / 4 + (y - 1) / 400 - (y - 1) / 100)
    + daysBeforeMonth y m + (d - 1)

/-- Milliseconds of the civil instant `y-m-d` plus `secs` seconds, on the
single clock of this model. -/
def msOfCivil (y m d secs : Nat) : Int :=
  ((daysSinceYearOne y m d * 86400 + secs) * 1000 : Nat)

/-- Parse `"yyyy-mm-dd"` (numeric fields, calendar-valid). -/
def parseDateChars (cs : List Char) : Option (Nat × Nat × Nat) :=
  match splitOnChar '-' cs with
  | [ys, ms, ds] =>
    match charsToNat? ys, charsToNat? ms, charsToNat? ds with
    | some y, some m, some d =>
      if 1 ≤ y && 1 ≤ m && m ≤ 12 && 1 ≤ d && d ≤ daysInMonth y m
      then some (y, m, d) else none
    | _, _, _ => none
  | _ => none

/-- Parse `"hh:mm"` or `"hh:mm:ss"` to seconds within the day. -/
def parseTimeChars (cs : List Char) : Option Nat :=
  match splitOnChar ':' cs with
  | [hs, ms] =>
    match charsToNat? hs, charsToNat? ms with
    | some h, some mi => if h ≤ 23 && mi ≤ 59 then some (h * 3600 + mi * 60) else none
    | _, _ => none
  | [hs, ms, ss] =>
    match charsToNat? hs, charsToNat? ms, charsToNat? ss with
    | some h, some mi, some s =>
      if h ≤ 23 && mi ≤ 59 && s ≤ 59 then some (h * 3600 + mi * 60 + s) else none
    | _, _, _ => none
  | _ => none

/-- Modelled platform semantics: the JavaScript `new Date(string)`
constructor, restricted to the shapes this code base feeds it:
`yyyy-mm-dd`, optionally followed by `T` or a space and `hh:mm[:ss]`,
with calendar-valid fields, gives the timestamp in milliseconds; every
other string gives an invalid date (`none`).  The US `m/d/y` fallback of
real engines is not modelled — the source handles slash-separated dates
through its own explicit format chain below. -/
def jsNewDate (cs : List Char) : Option Int :=
  let cs' := cs.map (fun c => if c = 'T' then ' ' else c)
  match splitOnChar ' ' cs' with
  | [datePart] =>
    (parseDateChars datePart).map (fun ymd => msOfCivil ymd.1 ymd.2.1 ymd.2.2 0)
  | [datePart, timePart] =>
    match parseDateChars datePart, parseTimeChars timePart with
    | some ymd, some secs => some (msOfCivil ymd.1 ymd.2.1 ymd.2.2 secs)
    | _, _ => none
  | _ => none

/-! ## `DataProcessor.parseDateTime` and its format chain -/

/-- A value found in a spreadsheet cell as handed to the processor:
absent (`undefined`), a string, or an already-typed `Date`. -/
inductive CellValue where
  | undef : CellValue
  | str : List Char → CellValue
  | date : Int → CellValue
deriving DecidableEq

/-- Format attempt (a) of `parseDateTime`: direct `new Date(strValue)`. -/
def dateFormat1 (strValue : List Char) : Option Int :=
  jsNewDate strValue

/-- Format attempt (b) of `parseDateTime`: split `"dd/mm/yyyy [time]"`
and reassemble as `"yyyy-mm-dd [time]"` for `new Date`. -/
def dateFormat2 (strValue : List Char) : Option Int :=
  match splitOnChar ' ' strValue with
  | [] => none
  | datePart :: rest =>
    if datePart = [] then none
    else
      match splitOnChar '/' datePart with
      | day :: month :: year :: _ =>
        let timePart := (rest.head?).getD []
        if timePart = [] then
          jsNewDate (year ++ '-' :: month ++ '-' :: day)
        else
          jsNewDate (year ++ '-' :: month ++ '-' :: day ++ ' ' :: timePart)
      | _ => none

/-- First-occurrence replacement of the pattern `dd/dd/dddd` by
`dddd-dd-dd` (the source's `strValue.replace(/(\d{2})\/(\d{2})\/(\d{4})/,
"$3-$1-$2")`).  `matchMDY` recognizes the pattern at the head of a
suffix. -/
def matchMDY : List Char → Option (List Char × List Char)
  | a :: b :: '/' :: c :: d :: '/' :: e :: f :: g :: h :: rest =>
    if a.isDigit && b.isDigit && c.isDigit && d.isDigit
        && e.isDigit && f.isDigit && g.isDigit && h.isDigit then
      some ([e, f, g, h, '-', a, b, '-', c, d], rest)
    else none
  | _ => none

/-- Scan for the first occurrence of the `dd/dd/dddd` pattern and replace
it; leave the string unchanged when the pattern never occurs. -/
def replaceMDY : List Char → List Char
  | [] => []
  | c :: rest =>
    match matchMDY (c :: rest) with
    | some (rep, rem) => rep ++ rem
    | none => c :: replaceMDY rest

/-- Format attempt (c) of `parseDateTime`: substitute a leading
`mm/dd/yyyy` pattern into ISO order and retry `new Date`. -/
def dateFormat3 (strValue : List Char) : Option Int :=
  jsNewDate (replaceMDY strValue)

/-- Embedding of `DataProcessor.parseDateTime`: falsy values are invalid, an
already-valid `Date` passes through, and strings are normalized and then
tried against the three formats in order; the first valid result wins,
otherwise the value is invalid (`none`). -/
def parseDateTime : CellValue → Option Int
  | .undef => none
  | .date ms => some ms
  | .str s =>
    if s = [] then none
    else
      let strValue := normalizeDateStr s
      match dateFormat1 strValue with
      | some d => some d
      | none =>
        match dateFormat2 strValue with
        | some d => some d
        | none => dateFormat3 strValue

/-! ## Row normalization (`DataProcessor.processRow`, `processFileData`) -/

/-- A raw spreadsheet row after `sheet_to_json` + `filterRelevantColumns`:
the four relevant cells, each possibly absent. -/
structure RawRow where
  jobName : CellValue
  agentName : CellValue
  startDateTime : CellValue
  endDateTime : CellValue
deriving DecidableEq

/-- A normalized execution record (`duration` is in minutes). -/
structure ExecutionRecord where
  jobName : List Char
  agentName : List Char
  startDateTime : Int
  endDateTime : Int
  duration : ℚ
deriving DecidableEq

/-- JavaScript `String(x || "")` for a cell value (an absent cell prints
as the empty string; a `Date` cell in a name column never occurs and is
mapped to the empty string as well). -/
def cellToStr : CellValue → List Char
  | .undef => []
  | .str s => s
  | .date _ => []

/-- The error values of the source's error-class hierarchy (`type`
discriminant plus wrapped original error where the source passes one;
messages are not modelled).  `fileReadFailure` is the `reader.onerror`
`FileError`, which carries no original error. -/
inductive JsError where
  | validationError : JsError
  | dataError : JsError
  | fileError : JsError → JsError
  | fileReadFailure : JsError
  | processingError : JsError → JsError
deriving DecidableEq

/-- Embedding of `DataProcessor.processRow`: parse both timestamps, drop the row when
either is invalid or the duration in minutes is negative (the `isNaN`
guard of the source cannot fire on exact arithmetic), otherwise build the
record with trimmed, stringified names. -/
def processRow (row : RawRow) : Option ExecutionRecord :=
  match parseDateTime row.startDateTime, parseDateTime row.endDateTime with
  | some startDate, some endDate =>
    let duration : ℚ := ((endDate - startDate : Int) : ℚ) / (1000 * 60)
    if duration < 0 then none
    else some { jobName := trimChars (cellToStr row.jobName),
                agentName := trimChars (cellToStr row.agentName),
                startDateTime := startDate,
                endDateTime := endDate,
                duration := duration }
  | _, _ => none

/-- Embedding of `DataProcessor.processFileData`: an empty extracted row list is a
fatal `DataError`; otherwise each row is processed and the null results
are filtered out. -/
def processFileData (data : List RawRow) : Except JsError (List ExecutionRecord) :=
  if data = [] then .error .dataError
  else .ok ((data.map processRow).filterMap id)

/-! ## Configuration (`config.js`) and header validation -/

namespace CONFIG

namespace EXCEL

/-- The constant `CONFIG.EXCEL.HEADER_ROW`. -/
def HEADER_ROW : Nat := 9

/-- The constant `CONFIG.EXCEL.DATA_START_ROW`. -/
def DATA_START_ROW : Nat := 10

/-- The constant `CONFIG.EXCEL.COLUMNS` zipped with `CONFIG.EXCEL.HEADERS` in the
insertion order `Object.entries` iterates them: column letter paired with
the required header text of the same key. -/
def COLUMNS : List (List Char × List Char) :=
  [(jstr "A", jstr "Job Name"),
   (jstr "E", jstr "Agent Name"),
   (jstr "O", jstr "Start Date, Time"),
   (jstr "Q", jstr "End Date, Time")]

end EXCEL

namespace ANALYSIS

/-- The constant `CONFIG.ANALYSIS.OVERDUE_THRESHOLD` (standard deviations above the
mean). -/
def OVERDUE_THRESHOLD : ℚ := 1

/-- The constant `CONFIG.ANALYSIS.MIN_EXECUTIONS`. -/
def MIN_EXECUTIONS : Nat := 3

end ANALYSIS

end CONFIG

/-- A worksheet: cell address (such as `"A9"`) to the cell's value,
`none` when the cell is absent. -/
def Sheet : Type := List Char → Option (List Char)

/-- The cell address `` `${columnLetter}${CONFIG.EXCEL.HEADER_ROW}` ``. -/
def cellAddress (col : List Char) : List Char :=
  col ++ Nat.toDigits 10 CONFIG.EXCEL.HEADER_ROW

/-- The check `validateHeaders` performs on one required column: the
header cell must be present, truthy, and contain the required header
text (`cellValue.toString().includes(...)`). -/
def checkHeaderCell (sheet : Sheet) (col expectedHeader : List Char) : Bool :=
  match sheet (cellAddress col) with
  | none => false
  | some v => !(v = [] : Bool) && containsStr expectedHeader v

/-- Embedding of `DataProcessor.validateHeaders`: walk the required columns in
configuration order; the first failing check aborts with a
`ValidationError`. -/
def validateHeadersAux (sheet : Sheet) : List (List Char × List Char) → Except JsError Unit
  | [] => .ok ()
  | c :: rest =>
    if checkHeaderCell sheet c.1 c.2 then validateHeadersAux sheet rest
    else .error .validationError

/-- The header walk over the configured columns. -/
def validateHeaders (sheet : Sheet) : Except JsError Unit :=
  validateHeadersAux sheet CONFIG.EXCEL.COLUMNS

/-- An input file as seen by `readFile`: its worksheet, and the raw rows
that the `XLSX.utils.sheet_to_json` library call extracts from it (the
library itself is not modelled). -/
structure XlsxFile where
  sheet : Sheet
  rows : List RawRow

/-- Embedding of `DataProcessor.readFile`: headers are validated before any data row
is converted; a validation failure is wrapped into a `FileError` and no
row is produced. -/
def readFile (f : XlsxFile) : Except JsError (List RawRow) :=
  match validateHeaders f.sheet with
  | .error e => .error (.fileError e)
  | .ok _ => .ok f.rows

/-! ## `DataProcessor` state, `reset`, `processFiles` -/

/-! Statistics structures come first because the processor state holds
the statistics map. -/

/-- The result of `Utils.calculateStats`: the standard deviation is
`Real.sqrt variance` (see `BasicStats.std`); the structure stores the
rational variance so that it stays computable. -/
structure BasicStats where
  min : ℚ
  max : ℚ
  mean : ℚ
  variance : ℚ
  count : Nat
deriving DecidableEq

/-- The `std` field of `Utils.calculateStats`: `Math.sqrt(variance)`. -/
noncomputable def BasicStats.std (s : BasicStats) : ℝ :=
  Real.sqrt (s.variance : ℝ)

/-- Embedding of `Utils.calculateStats`: `null` on an empty array; otherwise the
single-pass mean, population variance (divide by `count`), min, max and
count, computed with the same folds as the source's `reduce` calls. -/
def calculateStats : List ℚ → Option BasicStats
  | [] => none
  | v :: vs =>
    let values := v :: vs
    let sum := values.foldl (· + ·) 0
    let mean := sum / (values.length : ℚ)
    let squaredDiffs := values.map (fun x => (x - mean) ^ 2)
    let variance := squaredDiffs.foldl (· + ·) 0 / (values.length : ℚ)
    some { min := values.foldl Min.min v,
           max := values.foldl Max.max v,
           mean := mean,
           variance := variance,
           count := values.length }

/-- One step of `Utils.groupBy`'s `reduce`: append the item to its
key's group, creating the group at the end on first sight of the key
(JavaScript object keys iterate in insertion order). -/
def insertGroup : List (List Char × List ExecutionRecord) → List Char → ExecutionRecord →
    List (List Char × List ExecutionRecord)
  | [], k, r => [(k, [r])]
  | (k', g) :: rest, k, r =>
    if k' = k then (k', g ++ [r]) :: rest
    else (k', g) :: insertGroup rest k r

/-- Embedding of `Utils.groupBy(data, "jobName")` as the insertion-ordered list of
`(jobName, group)` entries. -/
def groupBy (data : List ExecutionRecord) : List (List Char × List ExecutionRecord) :=
  data.foldl (fun groups r => insertGroup groups r.jobName r) []

/-- One entry of `DataProcessor.calculateStatistics`'s map: the spread
`Utils.calculateStats` result plus the extra fields (the purely
presentational `averageDuration`/`minDuration`/`maxDuration` fields,
which reformat `mean`/`min`/`max`, are not modelled). -/
structure JobStatistics where
  basic : Option BasicStats
  totalExecutions : Nat
  uniqueAgents : Nat
deriving DecidableEq

/-- Embedding of `DataProcessor.calculateStatistics` over a record sequence: group by
job name and attach the per-group statistics (`uniqueAgents` is the size
of the `Set` of agent names). -/
def calculateStatistics (data : List ExecutionRecord) :
    List (List Char × JobStatistics) :=
  (groupBy data).map (fun g =>
    (g.1, { basic := calculateStats (g.2.map ExecutionRecord.duration),
            totalExecutions := g.2.length,
            uniqueAgents := ((g.2.map ExecutionRecord.agentName).dedup).length }))

/-- The `DataProcessor` instance state: `rawData` is never read by the
source after `reset`, so only `processedData` and `statistics` are
modelled. -/
structure DataProcessorState where
  processedData : List ExecutionRecord
  statistics : List (List Char × JobStatistics)
deriving DecidableEq

/-- Embedding of `DataProcessor.reset`. -/
def DataProcessor.reset : DataProcessorState :=
  { processedData := [], statistics := [] }

/-- The sequential accumulation loop of `DataProcessor.processFiles`:
read and process each file in order, appending its records; the first
failing file aborts the whole batch. -/
def processFilesGo : List XlsxFile → List ExecutionRecord →
    Except JsError (List ExecutionRecord)
  | [], acc => .ok acc
  | f :: rest, acc =>
    match readFile f with
    | .error e => .error e
    | .ok rows =>
      match processFileData rows with
      | .error e => .error e
      | .ok processed => processFilesGo rest (acc ++ processed)

/-- Embedding of `DataProcessor.processFiles`: reset the state (the previous state is
discarded), accumulate every file's records in selection order, then
compute the statistics; any error is wrapped into a `ProcessingError`. -/
def DataProcessor.processFiles (_st : DataProcessorState) (files : List XlsxFile) :
    Except JsError DataProcessorState :=
  let st0 := DataProcessor.reset
  match processFilesGo files st0.processedData with
  | .error e => .error (.processingError e)
  | .ok data => .ok { processedData := data, statistics := calculateStatistics data }

/-! ## `ExportManager.calculateOverdueAnalysis` -/

/-- One entry of the overdue analysis (the presentational
`averageDuration`/`standardDeviation` fields, reformatting of `mean` and
`std`, are not modelled). -/
structure OverdueEntry where
  overdueCount : Nat
  totalExecutions : Nat
  overduePercentage : ℚ
deriving DecidableEq

/-- The comparison `j.duration > overdueThreshold` with
`overdueThreshold = stats.mean + stats.std * CONFIG.ANALYSIS.OVERDUE_THRESHOLD`,
stated over `ℝ` because `std` is a square root. -/
def overdueGT (d mean variance : ℚ) : Prop :=
  (mean : ℝ) + Real.sqrt (variance : ℝ) * ((CONFIG.ANALYSIS.OVERDUE_THRESHOLD : ℚ) : ℝ)
    < (d : ℝ)

/-- The real comparison against `mean + √variance · k` (with `k = 1`)
is equivalent to a rational test, which keeps the classifier
computable. -/
theorem overdueGT_iff (d mean variance : ℚ) :
    overdueGT d mean variance ↔ (mean < d ∧ variance < (d - mean) ^ 2) := by
  unfold overdueGT
  rw [show ((CONFIG.ANALYSIS.OVERDUE_THRESHOLD : ℚ) : ℝ) = 1 by
        simp [CONFIG.ANALYSIS.OVERDUE_THRESHOLD], mul_one]
  constructor
  · intro h
    have hs : Real.sqrt (variance : ℝ) < (d : ℝ) - (mean : ℝ) := by linarith
    have hx : (0 : ℝ) < (d : ℝ) - (mean : ℝ) :=
      lt_of_le_of_lt (Real.sqrt_nonneg _) hs
    refine ⟨by exact_mod_cast sub_pos.mp hx, ?_⟩
    have h2 : (variance : ℝ) < ((d : ℝ) - (mean : ℝ)) ^ 2 :=
      (Real.sqrt_lt' hx).mp hs
    exact_mod_cast h2
  · rintro ⟨h1, h2⟩
    have hx : (0 : ℝ) < (d : ℝ) - (mean : ℝ) := by
      have : (mean : ℝ) < (d : ℝ) := by exact_mod_cast h1
      linarith
    have h2' : (variance : ℝ) < ((d : ℝ) - (mean : ℝ)) ^ 2 := by exact_mod_cast h2
    have hs := (Real.sqrt_lt' hx).mpr h2'
    linarith

instance (d mean variance : ℚ) : Decidable (overdueGT d mean variance) :=
  decidable_of_iff _ (overdueGT_iff d mean variance).symm

/-- Embedding of `ExportManager.calculateOverdueAnalysis`: per job group, count the
records whose duration strictly exceeds `mean + std · k` and derive the
percentage.  A group is never empty (see `groupBy_build`); on an empty
group the source would dereference `null`, modelled by a zero entry. -/
def calculateOverdueAnalysis (data : List ExecutionRecord) :
    List (List Char × OverdueEntry) :=
  (groupBy data).map (fun g =>
    match calculateStats (g.2.map ExecutionRecord.duration) with
    | none => (g.1, { overdueCount := 0, totalExecutions := 0, overduePercentage := 0 })
    | some stats =>
      let overdueCount :=
        (g.2.filter (fun j => decide (overdueGT j.duration stats.mean stats.variance))).length
      (g.1, { overdueCount := overdueCount,
              totalExecutions := g.2.length,
              overduePercentage := (overdueCount : ℚ) / (g.2.length : ℚ) * 100 }))

/-! ## Structural lemmas about `groupBy` -/

/-- Equation lemma: inserting into an empty group list. -/
theorem insertGroup_nil (k : List Char) (r : ExecutionRecord) :
    insertGroup [] k r = [(k, [r])] := rfl

/-- Equation lemma: inserting into a nonempty group list. -/
theorem insertGroup_cons (k' : List Char) (g : List ExecutionRecord)
    (rest : List (List Char × List ExecutionRecord)) (k : List Char) (r : ExecutionRecord) :
    insertGroup ((k', g) :: rest) k r =
      if k' = k then (k', g ++ [r]) :: rest else (k', g) :: insertGroup rest k r := rfl

/-- Unfolding step for `insertGroup` over a canonical group list: when
`p` holds no record of `r`'s job unless that job is already a key
(`hmiss`), inserting `r` turns the canonical grouping of `p` into the
canonical grouping of `p ++ [r]`, with the key appended on first
sight. -/
theorem insertGroup_build (p : List ExecutionRecord) (r : ExecutionRecord) :
    ∀ ks : List (List Char), ks.Nodup →
    (r.jobName ∉ ks → p.filter (fun x => x.jobName = r.jobName) = []) →
    insertGroup (ks.map (fun k => (k, p.filter (fun x => x.jobName = k)))) r.jobName r
      = (if r.jobName ∈ ks then ks else ks ++ [r.jobName]).map
          (fun k => (k, (p ++ [r]).filter (fun x => x.jobName = k)))
  | [], _, hmiss => by
    have hpf : p.filter (fun x => x.jobName = r.jobName) = [] :=
      hmiss (List.not_mem_nil _)
    simp [insertGroup_nil, List.filter_append, hpf]
  | k₀ :: ks', hnd, hmiss => by
    rcases List.nodup_cons.mp hnd with ⟨hk₀, hnd'⟩
    by_cases hhead : k₀ = r.jobName
    · subst hhead
      rw [List.map_cons, insertGroup_cons, if_pos rfl,
        if_pos (List.mem_cons_self _ _), List.map_cons]
      congr 1
      · simp [List.filter_append]
      · refine List.map_congr_left (fun k hk => ?_)
        have hkne : ¬ r.jobName = k := by
          rintro rfl; exact hk₀ hk
        simp [List.filter_append, hkne]
    · have hne' : ¬ r.jobName = k₀ := fun h => hhead h.symm
      have hmiss' : r.jobName ∉ ks' → p.filter (fun x => x.jobName = r.jobName) = [] := by
        intro hnm
        exact hmiss (by simp [List.mem_cons, hnm, hne'])
      have ih := insertGroup_build p r ks' hnd' hmiss'
      rw [List.map_cons, insertGroup_cons, if_neg hhead, ih]
      by_cases hmem : r.jobName ∈ ks'
      · rw [if_pos hmem, if_pos (List.mem_cons_of_mem _ hmem), List.map_cons]
        congr 1
        simp [List.filter_append, hne']
      · have hcons : r.jobName ∉ k₀ :: ks' := by
          simp [List.mem_cons, hne', hmem]
        rw [if_neg hmem, if_neg hcons, List.cons_append, List.map_cons]
        congr 1
        simp [List.filter_append, hne']

/-- The fold of `Utils.groupBy` maps a canonical grouping of the already
seen records `p` to a canonical grouping of `p ++ l`: the groups are
exactly the filters of the input by key, keyed without duplicates by the
job names present. -/
theorem groupBy_foldl_build :
    ∀ (l p : List ExecutionRecord) (ks : List (List Char)), ks.Nodup →
    (∀ k, k ∈ ks ↔ k ∈ p.map ExecutionRecord.jobName) →
    ∃ ks' : List (List Char), ks'.Nodup ∧
      (∀ k, k ∈ ks' ↔ k ∈ (p ++ l).map ExecutionRecord.jobName) ∧
      l.foldl (fun groups r => insertGroup groups r.jobName r)
          (ks.map (fun k => (k, p.filter (fun x => x.jobName = k))))
        = ks'.map (fun k => (k, (p ++ l).filter (fun x => x.jobName = k)))
  | [], p, ks, hnd, hks => ⟨ks, hnd, by simpa using hks, by simp⟩
  | r :: l', p, ks, hnd, hks => by
    have hmiss : r.jobName ∉ ks → p.filter (fun x => x.jobName = r.jobName) = [] := by
      intro hnm
      refine List.filter_eq_nil_iff.mpr (fun a ha => ?_)
      simp only [decide_eq_true_eq]
      intro heq
      exact hnm ((hks r.jobName).mpr (heq ▸ List.mem_map_of_mem ExecutionRecord.jobName ha))
    have hstep := insertGroup_build p r ks hnd hmiss
    set ks₁ : List (List Char) := if r.jobName ∈ ks then ks else ks ++ [r.jobName] with hks₁
    have hnd₁ : ks₁.Nodup := by
      rw [hks₁]
      by_cases hmem : r.jobName ∈ ks
      · simpa [hmem] using hnd
      · simp [hmem, List.nodup_append, hnd]
    have hks₁iff : ∀ k, k ∈ ks₁ ↔ k ∈ (p ++ [r]).map ExecutionRecord.jobName := by
      intro k
      rw [hks₁]
      by_cases hmem : r.jobName ∈ ks
      · have hrin : r.jobName ∈ p.map ExecutionRecord.jobName := (hks r.jobName).mp hmem
        simp only [if_pos hmem, List.map_append, List.mem_append, List.map_cons,
          List.map_nil, List.mem_singleton, hks k]
        constructor
        · exact Or.inl
        · rintro (h | h)
          · exact h
          · exact h ▸ hrin
      · simp [if_neg hmem, List.mem_append, hks k, or_comm]
    obtain ⟨ks', hnd', hks', hfold⟩ :=
      groupBy_foldl_build l' (p ++ [r]) ks₁ hnd₁ hks₁iff
    have happ : p ++ [r] ++ l' = p ++ r :: l' := by simp
    refine ⟨ks', hnd', ?_, ?_⟩
    · intro k
      rw [← happ]
      exact hks' k
    · rw [List.foldl_cons, hstep, hfold, happ]

/-- The embedded `Utils.groupBy` is the canonical grouping: its keys are exactly the
job names present, without duplicates and in first-appearance order, and
each group is the order-preserving filter of the input by its key. -/
theorem groupBy_build (l : List ExecutionRecord) :
    ∃ ks : List (List Char), ks.Nodup ∧
      (∀ k, k ∈ ks ↔ k ∈ l.map ExecutionRecord.jobName) ∧
      groupBy l = ks.map (fun k => (k, l.filter (fun x => x.jobName = k))) := by
  have h := groupBy_foldl_build l [] [] List.nodup_nil (by simp)
  simpa [groupBy] using h

/-- Membership in `groupBy`: each entry's group is the filter of the
input by the entry's key, and it is nonempty. -/
theorem groupBy_mem_spec {l : List ExecutionRecord} {k : List Char}
    {g : List ExecutionRecord} (h : (k, g) ∈ groupBy l) :
    g = l.filter (fun x => x.jobName = k) ∧ g ≠ [] := by
  obtain ⟨ks, hnd, hiff, heq⟩ := groupBy_build l
  rw [heq] at h
  obtain ⟨k₀, hk₀, hpair⟩ := List.mem_map.mp h
  obtain ⟨rfl, rfl⟩ := Prod.mk.injEq .. ▸ hpair
  refine ⟨rfl, ?_⟩
  obtain ⟨a, ha, haeq⟩ := List.mem_map.mp ((hiff k₀).mp hk₀)
  intro hnil
  have : a ∈ l.filter (fun x => x.jobName = k₀) :=
    List.mem_filter.mpr ⟨ha, by simp [haeq]⟩
  rw [hnil] at this
  exact List.not_mem_nil a this

/-! ## Fold lemmas for the statistics -/

/-- The source's `reduce((a, b) => a + b, 0)` is the list sum. -/
theorem foldl_add_eq (l : List ℚ) : ∀ a : ℚ, l.foldl (· + ·) a = a + l.sum := by
  induction l with
  | nil => intro a; simp
  | cons c l ih => intro a; simp [ih, add_assoc]

/-- A `min`-fold is bounded by its initial value. -/
theorem foldl_min_le_init (l : List ℚ) : ∀ a : ℚ, l.foldl Min.min a ≤ a := by
  induction l with
  | nil => intro a; simp
  | cons c l ih =>
    intro a
    exact le_trans (ih (Min.min a c)) (min_le_left a c)

/-- A `min`-fold is bounded by every list element. -/
theorem foldl_min_le_mem (l : List ℚ) : ∀ (a b : ℚ), b ∈ l → l.foldl Min.min a ≤ b := by
  induction l with
  | nil => intro a b hb; exact absurd hb (List.not_mem_nil b)
  | cons c l ih =>
    intro a b hb
    rcases List.mem_cons.mp hb with rfl | hb'
    · exact le_trans (foldl_min_le_init l (Min.min a b)) (min_le_right a b)
    · exact ih (Min.min a c) b hb'

/-- A `min`-fold returns its initial value or a list element. -/
theorem foldl_min_mem (l : List ℚ) : ∀ a : ℚ, l.foldl Min.min a ∈ a :: l := by
  induction l with
  | nil => intro a; simp
  | cons c l ih =>
    intro a
    rcases List.mem_cons.mp (ih (Min.min a c)) with h | h
    · rcases min_choice a c with hm | hm
      · exact List.mem_cons.mpr (Or.inl (h.trans hm))
      · exact List.mem_cons.mpr (Or.inr (List.mem_cons.mpr (Or.inl (h.trans hm))))
    · exact List.mem_cons.mpr (Or.inr (List.mem_cons.mpr (Or.inr h)))

/-- A `max`-fold dominates its initial value. -/
theorem foldl_max_ge_init (l : List ℚ) : ∀ a : ℚ, a ≤ l.foldl Max.max a := by
  induction l with
  | nil => intro a; simp
  | cons c l ih =>
    intro a
    exact le_trans (le_max_left a c) (ih (Max.max a c))

/-- A `max`-fold dominates every list element. -/
theorem foldl_max_ge_mem (l : List ℚ) : ∀ (a b : ℚ), b ∈ l → b ≤ l.foldl Max.max a := by
  induction l with
  | nil => intro a b hb; exact absurd hb (List.not_mem_nil b)
  | cons c l ih =>
    intro a b hb
    rcases List.mem_cons.mp hb with rfl | hb'
    · exact le_trans (le_max_right a b) (foldl_max_ge_init l (Max.max a b))
    · exact ih (Max.max a c) b hb'

/-- A `max`-fold returns its initial value or a list element. -/
theorem foldl_max_mem (l : List ℚ) : ∀ a : ℚ, l.foldl Max.max a ∈ a :: l := by
  induction l with
  | nil => intro a; simp
  | cons c l ih =>
    intro a
    rcases List.mem_cons.mp (ih (Max.max a c)) with h | h
    · rcases max_choice a c with hm | hm
      · exact List.mem_cons.mpr (Or.inl (h.trans hm))
      · exact List.mem_cons.mpr (Or.inr (List.mem_cons.mpr (Or.inl (h.trans hm))))
    · exact List.mem_cons.mpr (Or.inr (List.mem_cons.mpr (Or.inr h)))

/-! ## Helper lemmas about per-file processing -/

/-- The embedded `processFileData` succeeds exactly on a nonempty extracted row list,
and then returns the in-order normalization of the rows. -/
theorem processFileData_ok_iff (data : List RawRow) (l : List ExecutionRecord) :
    processFileData data = .ok l ↔ data ≠ [] ∧ l = data.filterMap processRow := by
  unfold processFileData
  by_cases h : data = []
  · simp [h]
  · rw [if_neg h]
    rw [List.filterMap_map]
    constructor
    · intro hok
      refine ⟨h, ?_⟩
      cases hok
      rfl
    · rintro ⟨-, rfl⟩
      rfl

/-- The embedded `processFileData` fails exactly on the empty extracted row list. -/
theorem processFileData_error_iff (data : List RawRow) (e : JsError) :
    processFileData data = .error e ↔ data = [] ∧ e = .dataError := by
  unfold processFileData
  by_cases h : data = [] <;> simp [h, eq_comm]

/-- Successful `processRow` destructured: both timestamps parsed, the
duration is non-negative, and the record is built from them. -/
theorem processRow_eq_some {row : RawRow} {rec : ExecutionRecord}
    (h : processRow row = some rec) :
    ∃ s e : Int, parseDateTime row.startDateTime = some s ∧
      parseDateTime row.endDateTime = some e ∧
      ¬ (((e - s : Int) : ℚ) / (1000 * 60) < 0) ∧
      rec = { jobName := trimChars (cellToStr row.jobName),
              agentName := trimChars (cellToStr row.agentName),
              startDateTime := s, endDateTime := e,
              duration := ((e - s : Int) : ℚ) / (1000 * 60) } := by
  rw [processRow] at h
  rcases hs : parseDateTime row.startDateTime with - | s <;> rw [hs] at h
  · simp at h
  · rcases he : parseDateTime row.endDateTime with - | e <;> rw [he] at h
    · simp at h
    · simp only at h
      split_ifs at h with hneg
      exact ⟨s, e, rfl, rfl, hneg, (Option.some_inj.mp h).symm⟩

/-- The embedded `processRow` drops a row whose start or end does not parse. -/
theorem processRow_none_of_parse_fail {row : RawRow}
    (h : parseDateTime row.startDateTime = none ∨ parseDateTime row.endDateTime = none) :
    processRow row = none := by
  rw [processRow]
  rcases h with h | h
  · rw [h]
  · rw [h]
    rcases parseDateTime row.startDateTime with - | s <;> rfl

/-- The embedded `processRow` drops a row whose duration comes out negative. -/
theorem processRow_none_of_neg {row : RawRow} {s e : Int}
    (hs : parseDateTime row.startDateTime = some s)
    (he : parseDateTime row.endDateTime = some e) (hlt : e < s) :
    processRow row = none := by
  rw [processRow, hs, he]
  simp only
  rw [if_pos]
  exact div_neg_of_neg_of_pos (by exact_mod_cast sub_neg.mpr hlt) (by norm_num)

/-! ## Concrete sample data shared by the witnesses -/

/-- A valid raw row of job `JobA` with a 10-minute duration. -/
def sampleRowA1 : RawRow :=
  { jobName := .str (jstr "JobA"), agentName := .str (jstr "agent1"),
    startDateTime := .date 0, endDateTime := .date 600000 }

/-- A valid raw row of job `JobA` with a 20-minute duration. -/
def sampleRowA2 : RawRow :=
  { jobName := .str (jstr "JobA"), agentName := .str (jstr "agent2"),
    startDateTime := .date 0, endDateTime := .date 1200000 }

/-- A valid raw row of job `JobA` with a 30-minute duration. -/
def sampleRowA3 : RawRow :=
  { jobName := .str (jstr "JobA"), agentName := .str (jstr "agent1"),
    startDateTime := .date 0, endDateTime := .date 1800000 }

/-- A raw row whose end value does not parse as a date. -/
def sampleRowBad : RawRow :=
  { jobName := .str (jstr "JobA"), agentName := .str (jstr "agent1"),
    startDateTime := .date 0, endDateTime := .str (jstr "not-a-date") }

/-- The record `processRow` produces from `sampleRowA1`. -/
def sampleRecA1 : ExecutionRecord :=
  { jobName := jstr "JobA", agentName := jstr "agent1",
    startDateTime := 0, endDateTime := 600000, duration := 10 }

/-- The record `processRow` produces from `sampleRowA2`. -/
def sampleRecA2 : ExecutionRecord :=
  { jobName := jstr "JobA", agentName := jstr "agent2",
    startDateTime := 0, endDateTime := 1200000, duration := 20 }

/-- The record `processRow` produces from `sampleRowA3`. -/
def sampleRecA3 : ExecutionRecord :=
  { jobName := jstr "JobA", agentName := jstr "agent1",
    startDateTime := 0, endDateTime := 1800000, duration := 30 }

/-- A record of a job with a single execution. -/
def sampleRecSolo : ExecutionRecord :=
  { jobName := jstr "solo", agentName := jstr "agent1",
    startDateTime := 0, endDateTime := 600000, duration := 10 }

/-- The record sequence with durations `[10, 20, 30]` for job `JobA`. -/
def sampleData : List ExecutionRecord := [sampleRecA1, sampleRecA2, sampleRecA3]

/-! ## The claims -/

/-- C7: the Date Parser maps `"15/03/2024 10:30:00"` and
`"2024-03-15T10:30:00"` to the same canonical instant, and maps both the
empty string and `"not-a-date"` to the invalid signal `none` — without
raising an exception, because `parseDateTime` is a total function that
tries the formats of its chain (`dateFormat1`, `dateFormat2`,
`dateFormat3`) in this fixed order. -/
theorem c7_date_parsing :
    parseDateTime (.str (jstr "15/03/2024 10:30:00"))
        = parseDateTime (.str (jstr "2024-03-15T10:30:00")) ∧
    parseDateTime (.str (jstr "2024-03-15T10:30:00")) = some 63846095400000 ∧
    parseDateTime (.str (jstr "")) = none ∧
    parseDateTime (.str (jstr "not-a-date")) = none := by
  refine ⟨?_, ?_, ?_, ?_⟩ <;> decide

/-- C6: every record emitted by `processRow` has a non-negative duration
and an end no earlier than its start, with the duration equal to
`(end − start)` milliseconds divided by `1000 · 60`; a candidate row
whose end precedes its start is rejected (`none`), never emitted. -/
theorem c6_record_invariants (row : RawRow) (rec : ExecutionRecord)
    (h : processRow row = some rec) :
    0 ≤ rec.duration ∧ rec.startDateTime ≤ rec.endDateTime ∧
    rec.duration = ((rec.endDateTime - rec.startDateTime : Int) : ℚ) / (1000 * 60) ∧
    ∀ (r : RawRow) (s e : Int), parseDateTime r.startDateTime = some s →
      parseDateTime r.endDateTime = some e → e < s → processRow r = none := by
  obtain ⟨s, e, hs, he, hneg, hrec⟩ := processRow_eq_some h
  subst hrec
  refine ⟨not_lt.mp hneg, ?_, rfl,
    fun r s' e' hs' he' hlt => processRow_none_of_neg hs' he' hlt⟩
  have h0 : (0 : ℚ) ≤ ((e - s : Int) : ℚ) := by
    by_contra hc
    push_neg at hc
    exact hneg (div_neg_of_neg_of_pos hc (by norm_num))
  have h1 : (0 : Int) ≤ e - s := by exact_mod_cast h0
  show s ≤ e
  omega

/-- Evaluation of `processRow` on `sampleRowA1` (0 ms to 600000 ms is a
duration of 10 minutes). -/
theorem processRow_sampleRowA1 : processRow sampleRowA1 = some sampleRecA1 := by
  norm_num [processRow, parseDateTime, sampleRowA1, sampleRecA1, cellToStr]
  constructor <;> decide

/-- Evaluation of `processRow` on `sampleRowA2`. -/
theorem processRow_sampleRowA2 : processRow sampleRowA2 = some sampleRecA2 := by
  norm_num [processRow, parseDateTime, sampleRowA2, sampleRecA2, cellToStr]
  constructor <;> decide

/-- Evaluation of `processRow` on `sampleRowA3`. -/
theorem processRow_sampleRowA3 : processRow sampleRowA3 = some sampleRecA3 := by
  norm_num [processRow, parseDateTime, sampleRowA3, sampleRecA3, cellToStr]
  constructor <;> decide

/-- Evaluation of `processRow` on the row with the unparsable end. -/
theorem processRow_sampleRowBad : processRow sampleRowBad = none :=
  processRow_none_of_parse_fail (Or.inr (by decide))

/-- Witness for C6 at `sampleRowA1`. -/
theorem c6_record_invariants_witness :
    processRow sampleRowA1 = some sampleRecA1 ∧
    0 ≤ sampleRecA1.duration ∧
    sampleRecA1.startDateTime ≤ sampleRecA1.endDateTime :=
  ⟨processRow_sampleRowA1,
    (c6_record_invariants sampleRowA1 sampleRecA1 processRow_sampleRowA1).1,
    (c6_record_invariants sampleRowA1 sampleRecA1 processRow_sampleRowA1).2.1⟩

/-- C5: a row whose start or end fails to parse is dropped (`none`)
without aborting the file — `processFileData` still succeeds on the
nonempty file and keeps every other valid row, in order — and a row
whose computed duration is negative is likewise dropped (on exact
arithmetic the `isNaN` case of the source's guard cannot occur). -/
theorem c5_row_drop (data : List RawRow) (row : RawRow) (hne : data ≠ [])
    (hbad : parseDateTime row.startDateTime = none ∨
      parseDateTime row.endDateTime = none) :
    processRow row = none ∧
    processFileData data = .ok (data.filterMap processRow) ∧
    (∀ (r : RawRow) (rec : ExecutionRecord), r ∈ data → processRow r = some rec →
      rec ∈ data.filterMap processRow) ∧
    (∀ (r : RawRow) (s e : Int), parseDateTime r.startDateTime = some s →
      parseDateTime r.endDateTime = some e →
      ((e - s : Int) : ℚ) / (1000 * 60) < 0 → processRow r = none) := by
  refine ⟨processRow_none_of_parse_fail hbad,
    (processFileData_ok_iff data _).mpr ⟨hne, rfl⟩,
    fun r rec hr hrec => List.mem_filterMap.mpr ⟨r, hr, hrec⟩,
    fun r s e hs he hneg => ?_⟩
  rw [processRow, hs, he]
  simp only
  rw [if_pos hneg]

/-- Witness for C5: in a file holding a valid row, the bad row, and
another valid row, the bad row is dropped and both valid rows survive in
order. -/
theorem c5_row_drop_witness :
    processRow sampleRowBad = none ∧
    processFileData [sampleRowA1, sampleRowBad, sampleRowA3]
      = .ok [sampleRecA1, sampleRecA3] := by
  have h := c5_row_drop [sampleRowA1, sampleRowBad, sampleRowA3] sampleRowBad
    (by decide) (Or.inr (by decide))
  have hfm : [sampleRowA1, sampleRowBad, sampleRowA3].filterMap processRow
      = [sampleRecA1, sampleRecA3] := by
    simp [List.filterMap_cons, processRow_sampleRowA1, processRow_sampleRowBad,
      processRow_sampleRowA3]
  exact ⟨h.1, by rw [h.2.1, hfm]⟩

/-- C4 counterexample: a file with one raw row whose end does not parse
yields zero valid rows after normalization, yet `processFileData`
returns `ok []` — no `DataError` is signalled, contradicting the claim
that zero valid rows after normalization is fatal. -/
theorem c4_counterexample :
    processFileData [sampleRowBad] = .ok [] ∧
    [sampleRowBad].filterMap processRow = [] := by
  have hfm : [sampleRowBad].filterMap processRow = [] := by
    simp [List.filterMap_cons, processRow_sampleRowBad]
  exact ⟨(processFileData_ok_iff _ _).mpr ⟨by decide, hfm.symm⟩, hfm⟩

/-- C4 as amended: `processFileData` signals the fatal `DataError`
exactly when the extracted raw row list itself is empty — before
normalization; a nonempty file whose rows are all dropped during
normalization contributes the empty record sequence without an error. -/
theorem c4_empty_dataset (data : List RawRow) :
    (data = [] → processFileData data = .error .dataError) ∧
    (data ≠ [] → processFileData data = .ok (data.filterMap processRow)) := by
  constructor
  · rintro rfl
    rfl
  · intro hne
    exact (processFileData_ok_iff data _).mpr ⟨hne, rfl⟩

/-- Witness for the amended C4: the empty row list errors, the all-bad
file does not. -/
theorem c4_empty_dataset_witness :
    processFileData ([] : List RawRow) = .error .dataError ∧
    processFileData [sampleRowBad] = .ok ([sampleRowBad].filterMap processRow) :=
  ⟨(c4_empty_dataset []).1 rfl, (c4_empty_dataset [sampleRowBad]).2 (by decide)⟩

/-- A failing check on some configured column makes the header walk
abort with a `ValidationError`. -/
theorem validateHeadersAux_error (sheet : Sheet) :
    ∀ cols : List (List Char × List Char),
    (∃ c ∈ cols, checkHeaderCell sheet c.1 c.2 = false) →
    validateHeadersAux sheet cols = .error .validationError
  | [], h => absurd h (by simp)
  | c :: rest, h => by
    rw [validateHeadersAux]
    by_cases hc : checkHeaderCell sheet c.1 c.2 = true
    · rw [if_pos hc]
      apply validateHeadersAux_error sheet rest
      obtain ⟨c', hc', hfalse⟩ := h
      rcases List.mem_cons.mp hc' with rfl | hmem
      · rw [hc] at hfalse
        cases hfalse
      · exact ⟨c', hmem, hfalse⟩
    · rw [if_neg hc]

/-- C3: when any of the four required header cells at the fixed header
row and fixed column letters fails its check — the cell is absent,
empty, or does not carry the expected header text (the source tests
containment via `includes`) — validation fails with a `ValidationError`
wrapped in a `FileError`, before any data row is read: whatever
well-formed rows the file holds, `readFile` yields no row and the whole
batch aborts, so the file contributes zero rows. -/
theorem c3_header_validation (sheet : Sheet)
    (h : ∃ c ∈ CONFIG.EXCEL.COLUMNS, checkHeaderCell sheet c.1 c.2 = false) :
    validateHeaders sheet = .error .validationError ∧
    ∀ rows : List RawRow,
      readFile ⟨sheet, rows⟩ = .error (.fileError .validationError) ∧
      ∀ st : DataProcessorState,
        DataProcessor.processFiles st [⟨sheet, rows⟩]
          = .error (.processingError (.fileError .validationError)) := by
  have hval : validateHeaders sheet = .error .validationError :=
    validateHeadersAux_error sheet CONFIG.EXCEL.COLUMNS h
  refine ⟨hval, fun rows => ⟨?_, fun st => ?_⟩⟩
  · rw [readFile]
    show (match validateHeaders sheet with
      | .error e => (.error (.fileError e) : Except JsError (List RawRow))
      | .ok _ => .ok rows) = _
    rw [hval]
  · rw [DataProcessor.processFiles]
    have hrf : readFile ⟨sheet, rows⟩ = .error (.fileError .validationError) := by
      rw [readFile]
      show (match validateHeaders sheet with
        | .error e => (.error (.fileError e) : Except JsError (List RawRow))
        | .ok _ => .ok rows) = _
      rw [hval]
    simp only [processFilesGo, hrf]

/-- Witness sheet whose four header cells carry exactly the configured
texts. -/
def sampleGoodSheet : Sheet := fun addr =>
  if addr = jstr "A9" then some (jstr "Job Name")
  else if addr = jstr "E9" then some (jstr "Agent Name")
  else if addr = jstr "O9" then some (jstr "Start Date, Time")
  else if addr = jstr "Q9" then some (jstr "End Date, Time")
  else none

/-- Witness sheet whose `A9` cell does not contain the required
`Job Name` text. -/
def sampleBadSheet : Sheet := fun addr =>
  if addr = jstr "A9" then some (jstr "Nome do Job")
  else if addr = jstr "E9" then some (jstr "Agent Name")
  else if addr = jstr "O9" then some (jstr "Start Date, Time")
  else if addr = jstr "Q9" then some (jstr "End Date, Time")
  else none

/-- Witness for C3: with the sheet whose `A9` header cell does not
contain `Job Name`, validation fails and the file's well-formed data
rows are never converted — the batch errors out. -/
theorem c3_header_validation_witness :
    ((jstr "A", jstr "Job Name") ∈ CONFIG.EXCEL.COLUMNS ∧
      checkHeaderCell sampleBadSheet (jstr "A") (jstr "Job Name") = false) ∧
    validateHeaders sampleBadSheet = .error .validationError ∧
    readFile ⟨sampleBadSheet, [sampleRowA1]⟩ = .error (.fileError .validationError) :=
  ⟨⟨by decide, by decide⟩,
    (c3_header_validation sampleBadSheet
      ⟨(jstr "A", jstr "Job Name"), by decide, by decide⟩).1,
    ((c3_header_validation sampleBadSheet
      ⟨(jstr "A", jstr "Job Name"), by decide, by decide⟩).2 [sampleRowA1]).1⟩

/-- The accumulation loop, when it succeeds, returns the accumulator
followed by each file's normalized rows, files in order and rows in
order within each file. -/
theorem processFilesGo_ok :
    ∀ (files : List XlsxFile) (acc res : List ExecutionRecord),
    processFilesGo files acc = .ok res →
    res = acc ++ (files.map (fun f => f.rows.filterMap processRow)).flatten
  | [], acc, res, h => by
    cases h
    simp
  | f :: rest, acc, res, h => by
    rw [processFilesGo] at h
    rcases hrf : readFile f with e | rows <;> rw [hrf] at h <;> dsimp only at h
    · simp at h
    · rcases hpf : processFileData rows with e | processed <;> rw [hpf] at h <;>
        dsimp only at h
      · simp at h
      · obtain ⟨hne, hproc⟩ := (processFileData_ok_iff rows processed).mp hpf
        have hrows : rows = f.rows := by
          rw [readFile] at hrf
          rcases hv : validateHeaders f.sheet with e' | u <;> rw [hv] at hrf
          · simp at hrf
          · simp only [Except.ok.injEq] at hrf
            exact hrf.symm
        have ih := processFilesGo_ok rest (acc ++ processed) res h
        rw [ih, hproc, hrows]
        simp [List.append_assoc]

/-- C8: a successful multi-file batch returns exactly the concatenation,
in file-selection order, of each file's surviving rows in their original
order (each file contributes `rows.filterMap processRow`, which keeps
the relative order of surviving rows); the stored statistics are those
of the concatenated sequence. -/
theorem c8_concatenation_order (st : DataProcessorState) (files : List XlsxFile)
    (st' : DataProcessorState)
    (h : DataProcessor.processFiles st files = .ok st') :
    st'.processedData = (files.map (fun f => f.rows.filterMap processRow)).flatten ∧
    st'.statistics = calculateStatistics st'.processedData := by
  rw [DataProcessor.processFiles] at h
  rcases hgo : processFilesGo files DataProcessor.reset.processedData
      with e | data <;> rw [hgo] at h
  · simp at h
  · have hdata := processFilesGo_ok files DataProcessor.reset.processedData data hgo
    simp only [Except.ok.injEq] at h
    rw [← h]
    have hnil : DataProcessor.reset.processedData = ([] : List ExecutionRecord) := rfl
    rw [hnil, List.nil_append] at hdata
    exact ⟨hdata, by rw [hdata]⟩

/-- C9: `processFiles` resets all accumulated state before accumulating,
so its result does not depend on the previous processor state: any two
states produce the same outcome on the same files, a second run from the
resulting state reproduces it, and `reset` holds no records and no
statistics. -/
theorem c9_reset_idempotence (s₁ s₂ : DataProcessorState) (files : List XlsxFile)
    (st' : DataProcessorState)
    (h : DataProcessor.processFiles s₁ files = .ok st') :
    DataProcessor.processFiles s₂ files = .ok st' ∧
    DataProcessor.processFiles st' files = .ok st' ∧
    DataProcessor.reset.processedData = [] ∧
    DataProcessor.reset.statistics = [] := by
  have hstate : ∀ t : DataProcessorState,
      DataProcessor.processFiles t files = DataProcessor.processFiles s₁ files :=
    fun t => rfl
  exact ⟨(hstate s₂).trans h, (hstate st').trans h, rfl, rfl⟩

/-- First witness file: a valid header sheet and three rows, one of
which is dropped. -/
def sampleFile1 : XlsxFile :=
  { sheet := sampleGoodSheet, rows := [sampleRowA1, sampleRowBad, sampleRowA2] }

/-- Second witness file: a valid header sheet and one row. -/
def sampleFile2 : XlsxFile :=
  { sheet := sampleGoodSheet, rows := [sampleRowA3] }

/-- The state a successful run over the two witness files produces. -/
def sampleFinalState : DataProcessorState :=
  { processedData := [sampleRecA1, sampleRecA2, sampleRecA3],
    statistics := calculateStatistics [sampleRecA1, sampleRecA2, sampleRecA3] }

/-- Concrete evaluation of the batch over the two witness files. -/
theorem processFiles_sample_run (st : DataProcessorState) :
    DataProcessor.processFiles st [sampleFile1, sampleFile2] = .ok sampleFinalState := by
  have hr1 : readFile sampleFile1 = .ok [sampleRowA1, sampleRowBad, sampleRowA2] := rfl
  have hr2 : readFile sampleFile2 = .ok [sampleRowA3] := rfl
  have hp1 : processFileData [sampleRowA1, sampleRowBad, sampleRowA2]
      = .ok [sampleRecA1, sampleRecA2] := by
    refine (processFileData_ok_iff _ _).mpr ⟨by decide, ?_⟩
    simp [List.filterMap_cons, processRow_sampleRowA1, processRow_sampleRowBad,
      processRow_sampleRowA2]
  have hp2 : processFileData [sampleRowA3] = .ok [sampleRecA3] := by
    refine (processFileData_ok_iff _ _).mpr ⟨by decide, ?_⟩
    simp [List.filterMap_cons, processRow_sampleRowA3]
  have hgo : processFilesGo [sampleFile1, sampleFile2] DataProcessor.reset.processedData
      = .ok [sampleRecA1, sampleRecA2, sampleRecA3] := by
    rw [processFilesGo, hr1]
    dsimp only
    rw [hp1]
    dsimp only
    rw [processFilesGo, hr2]
    dsimp only
    rw [hp2]
    dsimp only
    rw [processFilesGo]
    rfl
  rw [DataProcessor.processFiles, hgo]
  rfl

/-- Witness for C8 over the two witness files. -/
theorem c8_concatenation_order_witness :
    DataProcessor.processFiles DataProcessor.reset [sampleFile1, sampleFile2]
      = .ok sampleFinalState ∧
    sampleFinalState.processedData
      = ([sampleFile1, sampleFile2].map (fun f => f.rows.filterMap processRow)).flatten :=
  ⟨processFiles_sample_run DataProcessor.reset,
    (c8_concatenation_order DataProcessor.reset [sampleFile1, sampleFile2]
      sampleFinalState (processFiles_sample_run DataProcessor.reset)).1⟩

/-- Witness for C9: a run from the reset state and a rerun from the
produced state give the very same state. -/
theorem c9_reset_idempotence_witness :
    DataProcessor.processFiles DataProcessor.reset [sampleFile1, sampleFile2]
      = .ok sampleFinalState ∧
    DataProcessor.processFiles sampleFinalState [sampleFile1, sampleFile2]
      = .ok sampleFinalState :=
  ⟨processFiles_sample_run DataProcessor.reset,
    (c9_reset_idempotence DataProcessor.reset sampleFinalState [sampleFile1, sampleFile2]
      sampleFinalState (processFiles_sample_run DataProcessor.reset)).2.1⟩

/-- Specification of `Utils.calculateStats` on a nonempty value list:
count, mean as sum over count, population variance as the mean squared
deviation, and min/max as attained bounds. -/
theorem calculateStats_spec (values : List ℚ) (hne : values ≠ []) :
    ∃ stats : BasicStats, calculateStats values = some stats ∧
      stats.count = values.length ∧
      stats.mean = values.sum / (values.length : ℚ) ∧
      stats.variance
        = (values.map (fun x => (x - stats.mean) ^ 2)).sum / (values.length : ℚ) ∧
      (∀ d ∈ values, stats.min ≤ d ∧ d ≤ stats.max) ∧
      stats.min ∈ values ∧ stats.max ∈ values := by
  rcases values with - | ⟨v, vs⟩
  · exact absurd rfl hne
  refine ⟨_, rfl, rfl, ?_, ?_, ?_, ?_, ?_⟩
  · show (v :: vs).foldl (· + ·) 0 / ((v :: vs).length : ℚ) = _
    rw [foldl_add_eq, zero_add]
  · show ((v :: vs).map (fun x => (x - ((v :: vs).foldl (· + ·) 0
        / ((v :: vs).length : ℚ))) ^ 2)).foldl (· + ·) 0 / ((v :: vs).length : ℚ) = _
    rw [foldl_add_eq, zero_add, foldl_add_eq, zero_add]
  · intro d hd
    exact ⟨foldl_min_le_mem (v :: vs) v d hd, foldl_max_ge_mem (v :: vs) v d hd⟩
  · rcases List.mem_cons.mp (foldl_min_mem (v :: vs) v) with h | h
    · rw [h]
      exact List.mem_cons_self v vs
    · exact h
  · rcases List.mem_cons.mp (foldl_max_mem (v :: vs) v) with h | h
    · rw [h]
      exact List.mem_cons_self v vs
    · exact h

/-- Evaluation of `Utils.calculateStats` on the spec's example durations
`[10, 20, 30]`. -/
theorem calculateStats_example :
    calculateStats [10, 20, 30]
      = some { min := 10, max := 30, mean := 20, variance := 200/3, count := 3 } := by
  norm_num [calculateStats, min_def, max_def]

/-- C1: for every job group the statistics entry carries the
`Utils.calculateStats` result: count is the group size, mean is the
duration sum over the count, variance is the mean squared deviation
(population: divisor `count`, not `count − 1`) with the standard
deviation its square root, and min/max are attained bounds of the
durations; on the example durations `[10, 20, 30]` this gives mean `20`,
variance `200/3` (so stddev `√(200/3)`), min `10`, max `30`, count `3`. -/
theorem c1_statistics_aggregator (data : List ExecutionRecord) (job : List Char)
    (jobs : List ExecutionRecord) (h : (job, jobs) ∈ groupBy data) :
    ∃ stats : BasicStats,
      calculateStats (jobs.map ExecutionRecord.duration) = some stats ∧
      (job, ({ basic := some stats, totalExecutions := jobs.length,
               uniqueAgents := ((jobs.map ExecutionRecord.agentName).dedup).length }
        : JobStatistics)) ∈ calculateStatistics data ∧
      stats.count = jobs.length ∧
      stats.mean = (jobs.map ExecutionRecord.duration).sum / (jobs.length : ℚ) ∧
      stats.variance = ((jobs.map ExecutionRecord.duration).map
          (fun x => (x - stats.mean) ^ 2)).sum / (jobs.length : ℚ) ∧
      BasicStats.std stats = Real.sqrt (stats.variance : ℝ) ∧
      (∀ d ∈ jobs.map ExecutionRecord.duration, stats.min ≤ d ∧ d ≤ stats.max) ∧
      stats.min ∈ jobs.map ExecutionRecord.duration ∧
      stats.max ∈ jobs.map ExecutionRecord.duration ∧
      calculateStats [10, 20, 30]
        = some { min := 10, max := 30, mean := 20, variance := 200/3, count := 3 } := by
  have hne : jobs ≠ [] := (groupBy_mem_spec h).2
  have hdne : jobs.map ExecutionRecord.duration ≠ [] := by
    simpa using hne
  obtain ⟨stats, hcs, hcount, hmean, hvar, hbounds, hminmem, hmaxmem⟩ :=
    calculateStats_spec (jobs.map ExecutionRecord.duration) hdne
  have hlen : (jobs.map ExecutionRecord.duration).length = jobs.length :=
    List.length_map jobs ExecutionRecord.duration
  refine ⟨stats, hcs, ?_, by rw [hcount, hlen], by rw [hmean, hlen],
    by rw [hvar, hlen], rfl, hbounds, hminmem, hmaxmem, calculateStats_example⟩
  have hmem := List.mem_map_of_mem
    (fun g : List Char × List ExecutionRecord =>
      (g.1, ({ basic := calculateStats (g.2.map ExecutionRecord.duration),
               totalExecutions := g.2.length,
               uniqueAgents := ((g.2.map ExecutionRecord.agentName).dedup).length }
        : JobStatistics))) h
  simpa [calculateStatistics, hcs] using hmem

/-- Witness for C1 at the `[10, 20, 30]` group of `sampleData`. -/
theorem c1_statistics_aggregator_witness :
    (jstr "JobA", [sampleRecA1, sampleRecA2, sampleRecA3]) ∈ groupBy sampleData ∧
    ∃ stats : BasicStats,
      calculateStats ([sampleRecA1, sampleRecA2, sampleRecA3].map
        ExecutionRecord.duration) = some stats ∧
      (jstr "JobA", ({ basic := some stats, totalExecutions := 3, uniqueAgents := 2 }
        : JobStatistics)) ∈ calculateStatistics sampleData := by
  have hmem : (jstr "JobA", [sampleRecA1, sampleRecA2, sampleRecA3]) ∈ groupBy sampleData := by
    decide
  obtain ⟨stats, hcs, hentry, -⟩ :=
    c1_statistics_aggregator sampleData (jstr "JobA")
      [sampleRecA1, sampleRecA2, sampleRecA3] hmem
  refine ⟨hmem, stats, hcs, ?_⟩
  have h2 : (([sampleRecA1, sampleRecA2, sampleRecA3].map
      ExecutionRecord.agentName).dedup).length = 2 := by decide
  simpa [h2] using hentry

/-- C2: for every job group, the overdue entry counts exactly the
group's records whose duration strictly exceeds
`mean + stddev · OVERDUE_THRESHOLD` (a duration equal to the threshold
is not counted), reports `overduePercentage = overdueCount / total ·
100`, and when the standard deviation is `0` the threshold collapses to
the mean, so exactly the durations strictly above the mean count; the
group is the filter of the whole input by the job name, so these are the
individual executions of that job. -/
theorem c2_overdue_classifier (data : List ExecutionRecord) (job : List Char)
    (jobs : List ExecutionRecord) (h : (job, jobs) ∈ groupBy data) :
    ∃ (stats : BasicStats) (entry : OverdueEntry),
      calculateStats (jobs.map ExecutionRecord.duration) = some stats ∧
      (job, entry) ∈ calculateOverdueAnalysis data ∧
      jobs = data.filter (fun x => x.jobName = job) ∧
      entry.overdueCount = (jobs.filter
        (fun j => decide (overdueGT j.duration stats.mean stats.variance))).length ∧
      (∀ d : ℚ, overdueGT d stats.mean stats.variance ↔
        (stats.mean : ℝ) + BasicStats.std stats
          * ((CONFIG.ANALYSIS.OVERDUE_THRESHOLD : ℚ) : ℝ) < (d : ℝ)) ∧
      (∀ d : ℚ, (d : ℝ) = (stats.mean : ℝ) + BasicStats.std stats
          * ((CONFIG.ANALYSIS.OVERDUE_THRESHOLD : ℚ) : ℝ) →
        ¬ overdueGT d stats.mean stats.variance) ∧
      entry.totalExecutions = jobs.length ∧
      entry.overduePercentage = (entry.overdueCount : ℚ) / (jobs.length : ℚ) * 100 ∧
      (BasicStats.std stats = 0 →
        ∀ d : ℚ, overdueGT d stats.mean stats.variance ↔ stats.mean < d) := by
  have hne : jobs ≠ [] := (groupBy_mem_spec h).2
  have hfilter : jobs = data.filter (fun x => x.jobName = job) := (groupBy_mem_spec h).1
  have hdne : jobs.map ExecutionRecord.duration ≠ [] := by
    simpa using hne
  obtain ⟨stats, hcs, -⟩ := calculateStats_spec (jobs.map ExecutionRecord.duration) hdne
  refine ⟨stats,
    { overdueCount := (jobs.filter
        (fun j => decide (overdueGT j.duration stats.mean stats.variance))).length,
      totalExecutions := jobs.length,
      overduePercentage := ((jobs.filter
        (fun j => decide (overdueGT j.duration stats.mean stats.variance))).length : ℚ)
        / (jobs.length : ℚ) * 100 },
    hcs, ?_, hfilter, rfl, fun d => Iff.rfl, ?_, rfl, rfl, ?_⟩
  · refine List.mem_map.mpr ⟨(job, jobs), h, ?_⟩
    dsimp only
    rw [hcs]
  · intro d hd hc
    have hc' : (stats.mean : ℝ) + BasicStats.std stats
        * ((CONFIG.ANALYSIS.OVERDUE_THRESHOLD : ℚ) : ℝ) < (d : ℝ) := hc
    rw [hd] at hc'
    exact lt_irrefl _ hc'
  · intro h0 d
    have h0' : Real.sqrt (stats.variance : ℝ) = 0 := h0
    show (stats.mean : ℝ) + Real.sqrt (stats.variance : ℝ)
        * ((CONFIG.ANALYSIS.OVERDUE_THRESHOLD : ℚ) : ℝ) < (d : ℝ) ↔ stats.mean < d
    rw [h0', zero_mul, add_zero]
    constructor
    · intro hh
      exact_mod_cast hh
    · intro hh
      exact_mod_cast hh

/-- Evaluation of the overdue analysis on `sampleData` (durations
`[10, 20, 30]`): only the duration `30` exceeds
`20 + √(200/3) ≈ 28.165`, so one of three executions is overdue. -/
theorem overdue_sample_eval :
    calculateOverdueAnalysis sampleData
      = [(jstr "JobA", { overdueCount := 1, totalExecutions := 3,
                         overduePercentage := 100/3 })] := by
  have hgb : groupBy sampleData
      = [(jstr "JobA", [sampleRecA1, sampleRecA2, sampleRecA3])] := by decide
  have hds : [sampleRecA1, sampleRecA2, sampleRecA3].map ExecutionRecord.duration
      = [10, 20, 30] := by decide
  rw [calculateOverdueAnalysis, hgb, List.map_cons, List.map_nil]
  dsimp only
  rw [hds, calculateStats_example]
  have h10 : decide (overdueGT (10 : ℚ) 20 (200/3)) = false := by
    rw [decide_eq_false_iff_not, overdueGT_iff]
    norm_num
  have h20 : decide (overdueGT (20 : ℚ) 20 (200/3)) = false := by
    rw [decide_eq_false_iff_not, overdueGT_iff]
    norm_num
  have h30 : decide (overdueGT (30 : ℚ) 20 (200/3)) = true := by
    rw [decide_eq_true_eq, overdueGT_iff]
    norm_num
  simp only [List.filter_cons, List.filter_nil, sampleRecA1, sampleRecA2, sampleRecA3,
    h10, h20, h30]
  norm_num

/-- Witness for C2 on `sampleData`. -/
theorem c2_overdue_classifier_witness :
    (jstr "JobA", [sampleRecA1, sampleRecA2, sampleRecA3]) ∈ groupBy sampleData ∧
    (∃ entry : OverdueEntry, (jstr "JobA", entry) ∈ calculateOverdueAnalysis sampleData) ∧
    calculateOverdueAnalysis sampleData
      = [(jstr "JobA", { overdueCount := 1, totalExecutions := 3,
                         overduePercentage := 100/3 })] := by
  have hmem : (jstr "JobA", [sampleRecA1, sampleRecA2, sampleRecA3]) ∈ groupBy sampleData := by
    decide
  obtain ⟨stats, entry, -, hentry, -⟩ :=
    c2_overdue_classifier sampleData (jstr "JobA")
      [sampleRecA1, sampleRecA2, sampleRecA3] hmem
  exact ⟨hmem, ⟨entry, hentry⟩, overdue_sample_eval⟩

/-- C10: both the statistics and the overdue analysis carry exactly one
entry per distinct job name present in the data — keys are duplicate-free
and a name is a key exactly when a record carries it — with no
minimum-group-size filtering: in particular every group, also one
smaller than `CONFIG.ANALYSIS.MIN_EXECUTIONS`, keeps its entry. -/
theorem c10_min_executions_unused (data : List ExecutionRecord) (k : List Char) :
    ((calculateStatistics data).map Prod.fst).Nodup ∧
    (k ∈ (calculateStatistics data).map Prod.fst ↔
      k ∈ data.map ExecutionRecord.jobName) ∧
    (calculateOverdueAnalysis data).map Prod.fst
      = (calculateStatistics data).map Prod.fst ∧
    (∀ g ∈ groupBy data, g.2.length < CONFIG.ANALYSIS.MIN_EXECUTIONS →
      g.1 ∈ (calculateStatistics data).map Prod.fst) := by
  obtain ⟨ks, hnd, hiff, heq⟩ := groupBy_build data
  have hstat : (calculateStatistics data).map Prod.fst = (groupBy data).map Prod.fst := by
    rw [calculateStatistics, List.map_map]
    exact List.map_congr_left (fun g hg => rfl)
  have hov : (calculateOverdueAnalysis data).map Prod.fst
      = (groupBy data).map Prod.fst := by
    rw [calculateOverdueAnalysis, List.map_map]
    refine List.map_congr_left (fun g hg => ?_)
    simp only [Function.comp_apply]
    rcases hcs : calculateStats (g.2.map ExecutionRecord.duration) with - | s <;>
      simp only [hcs]
  have hkeys : (groupBy data).map Prod.fst = ks := by
    rw [heq, List.map_map]
    have hid : ks.map (Prod.fst ∘ fun k => (k, data.filter (fun x => x.jobName = k)))
        = ks.map id := List.map_congr_left (fun k hk => rfl)
    rw [hid, List.map_id]
  refine ⟨?_, ?_, by rw [hov, hstat], ?_⟩
  · rw [hstat, hkeys]
    exact hnd
  · rw [hstat, hkeys, hiff k]
  · intro g hg hlt
    rw [hstat]
    exact List.mem_map_of_mem Prod.fst hg

/-- Witness for C10: a job with a single execution — fewer than
`CONFIG.ANALYSIS.MIN_EXECUTIONS = 3` — still gets its statistics entry. -/
theorem c10_min_executions_unused_witness :
    1 < CONFIG.ANALYSIS.MIN_EXECUTIONS ∧
    ((jstr "solo") ∈ (calculateStatistics [sampleRecSolo]).map Prod.fst ↔
      (jstr "solo") ∈ [sampleRecSolo].map ExecutionRecord.jobName) ∧
    (jstr "solo") ∈ [sampleRecSolo].map ExecutionRecord.jobName :=
  ⟨by decide, (c10_min_executions_unused [sampleRecSolo] (jstr "solo")).2.1, by decide⟩
